import Mathlib

/-!
Verification development for the cleartx account-resolution core.

The definitions below are a shallow embedding of the TypeScript sources:
  * `src/core/accountMatcher.ts` — the text scanner
    (`BANK_PATTERNS`, `GENERIC_LAST4`, `detectSourceAccountFromText`,
    `extractHashtags`, `HANDLE_MAP`, `detectBankFromUpiText`, `detectUpiHandle`);
  * `src/pages/TransactionsPage.tsx` — the account-resolution logic of
    `handleSubmit` (lines 72–108) together with the transaction commit.

JavaScript regular expressions are embedded by a small backtracking matcher
(`reM` below) that implements exactly the constructs the source patterns use:
literals, character classes, alternation (left priority), greedy `?` / `+` /
`*` / `{lo,hi}`, lazy `.*?`, the word-boundary assertion and the single
capturing group `(\d{4})` that every pattern in the source reads out.
Strings are modelled as `List Char`; `toLowerCase` is modelled by mapping
`Char.toLower` (the source only relies on ASCII case folding).
-/

namespace ClearTx

/-! ### Character classes used by the source patterns -/

/-- JS class `[A-Za-z0-9:_-]` of `extractHashtags`. -/
def isTagChar (c : Char) : Bool :=
  let n := c.toNat
  (48 ≤ n && n ≤ 57) || (65 ≤ n && n ≤ 90) || (97 ≤ n && n ≤ 122) ||
    n == 58 || n == 95 || n == 45

/-- JS class `[a-z0-9]`, the complement of the token separator of
`detectBankFromUpiText` (`/[^a-z0-9]+/` on lower-cased text). -/
def isLowAlnum (c : Char) : Bool :=
  let n := c.toNat
  (97 ≤ n && n ≤ 122) || (48 ≤ n && n ≤ 57)

/-- JS `\w`, that is `[A-Za-z0-9_]`. -/
def isWordChar (c : Char) : Bool :=
  let n := c.toNat
  (48 ≤ n && n ≤ 57) || (65 ≤ n && n ≤ 90) || (97 ≤ n && n ≤ 122) || n == 95

/-- JS `.` without the `s` flag: any character except line terminators. -/
def isDotChar (c : Char) : Bool :=
  !(c == '\n' || c == '\r' || c.toNat == 0x2028 || c.toNat == 0x2029)

/-- JS `\s` (the whitespace class). -/
def isJsSpace (c : Char) : Bool :=
  let n := c.toNat
  n == 32 || n == 9 || n == 10 || n == 11 || n == 12 || n == 13 ||
    n == 0xa0 || n == 0x1680 || (0x2000 ≤ n && n ≤ 0x200a) ||
    n == 0x2028 || n == 0x2029 || n == 0x202f || n == 0x205f ||
    n == 0x3000 || n == 0xfeff

/-- JS class `[\w.-]` (local part of a UPI handle). -/
def isWordDotDash (c : Char) : Bool :=
  isWordChar c || c == '.' || c == '-'

/-- JS class `[a-z0-9.-]` (provider part of a UPI handle). -/
def isLowAlnumDotDash (c : Char) : Bool :=
  isLowAlnum c || c == '.' || c == '-'

/-- JS class `[^\d]` of the generic fallback pattern. -/
def isNonDigit (c : Char) : Bool :=
  !c.isDigit

/-! ### A backtracking matcher for the regex subset used by the source -/

/-- Matcher continuations receive the capture recorded so far, the character
immediately before the remaining input (for `\b`), and the remaining input. -/
abbrev MK (R : Type) := Option (List Char) → Option Char → List Char → Option R

/-- Abstract syntax of the regex subset appearing in `accountMatcher.ts`.
Character repetitions (`starL` for lazy `*?`, `starG` for greedy `*`,
`repG` for greedy `{lo,hi}`) are restricted to single-character classes,
which is all the source patterns use.  `grpD4` is the capturing group
`(\d{4})`; it is the only group the source ever reads out (see
`BANK_PATTERNS` below). -/
inductive RE : Type where
  | eps : RE
  | cls : (Char → Bool) → RE
  | seq : RE → RE → RE
  | alt : RE → RE → RE
  | opt : RE → RE
  | starL : (Char → Bool) → RE
  | starG : (Char → Bool) → RE
  | repG : Nat → Nat → (Char → Bool) → RE
  | grpD4 : RE
  | wordB : RE

/-- Literal string as a regex. -/
def relit (l : List Char) : RE :=
  l.foldr (fun c r => RE.seq (RE.cls (fun d => d == c)) r) RE.eps

/-- Is the previous/next character a word character (`\b` helper)? -/
def isWordOpt : Option Char → Bool
  | some c => isWordChar c
  | none => false

/-- Lazy star over a character class: try the continuation first, then
consume one more character. -/
def starLRun {R : Type} (p : Char → Bool) (cap : Option (List Char)) (k : MK R) :
    Option Char → List Char → Option R
  | prev, [] => k cap prev []
  | prev, c :: rest =>
    match k cap prev (c :: rest) with
    | some r => some r
    | none => if p c then starLRun p cap k (some c) rest else none

/-- Greedy star over a character class: consume as much as possible, then
backtrack into the continuation. -/
def starGRun {R : Type} (p : Char → Bool) (cap : Option (List Char)) (k : MK R) :
    Option Char → List Char → Option R
  | prev, [] => k cap prev []
  | prev, c :: rest =>
    if p c then
      match starGRun p cap k (some c) rest with
      | some r => some r
      | none => k cap prev (c :: rest)
    else k cap prev (c :: rest)

/-- Greedy bounded repetition `{lo,hi}` over a character class. -/
def repGRun {R : Type} (p : Char → Bool) (cap : Option (List Char)) (k : MK R) :
    Nat → Nat → Option Char → List Char → Option R
  | lo, 0, prev, s => if lo = 0 then k cap prev s else none
  | lo, _ + 1, prev, [] => if lo = 0 then k cap prev [] else none
  | lo, hi + 1, prev, c :: rest =>
    if p c then
      match repGRun p cap k (lo - 1) hi (some c) rest with
      | some r => some r
      | none => if lo = 0 then k cap prev (c :: rest) else none
    else if lo = 0 then k cap prev (c :: rest) else none

/-- The matcher.  `reM r cap prev s k` matches `r` at the start of `s`
(`prev` is the character just before `s`, `cap` the capture recorded so
far) and calls the continuation `k` on every candidate suffix in the
backtracking priority order of JavaScript regexes. -/
def reM {R : Type} : RE → Option (List Char) → Option Char → List Char → MK R → Option R
  | RE.eps, cap, prev, s, k => k cap prev s
  | RE.cls p, cap, _, s, k =>
    match s with
    | c :: rest => if p c then k cap (some c) rest else none
    | [] => none
  | RE.seq a b, cap, prev, s, k =>
    reM a cap prev s (fun cap2 prev2 s2 => reM b cap2 prev2 s2 k)
  | RE.alt a b, cap, prev, s, k =>
    match reM a cap prev s k with
    | some r => some r
    | none => reM b cap prev s k
  | RE.opt a, cap, prev, s, k =>
    match reM a cap prev s k with
    | some r => some r
    | none => k cap prev s
  | RE.starL p, cap, prev, s, k => starLRun p cap k prev s
  | RE.starG p, cap, prev, s, k => starGRun p cap k prev s
  | RE.repG lo hi p, cap, prev, s, k => repGRun p cap k lo hi prev s
  | RE.grpD4, _, _, s, k =>
    match s with
    | c1 :: c2 :: c3 :: c4 :: rest =>
      if c1.isDigit && c2.isDigit && c3.isDigit && c4.isDigit then
        k (some [c1, c2, c3, c4]) (some c4) rest
      else none
    | _ => none
  | RE.wordB, cap, prev, s, k =>
    if isWordOpt prev ≠ isWordOpt s.head? then k cap prev s else none

/-- One match attempt anchored at the current position.  On success it
returns the matched substring (JS `m[0]`) and the recorded capture. -/
def reAttempt (r : RE) (prev : Option Char) (s : List Char) :
    Option (List Char × Option (List Char)) :=
  match reM r none prev s (fun cap _ rest => some (rest, cap)) with
  | some (rest, cap) => some (s.take (s.length - rest.length), cap)
  | none => none

/-- Leftmost search, as performed by JS `String.prototype.match` without the
`g` flag: attempt positions from left to right. -/
def reSearch (r : RE) : Option Char → List Char → Option (List Char × Option (List Char))
  | prev, [] => reAttempt r prev []
  | prev, c :: rest =>
    match reAttempt r prev (c :: rest) with
    | some res => some res
    | none => reSearch r (some c) rest

/-! ### The pattern library of `accountMatcher.ts` -/

/-- Lazy `.*?`. -/
def lazyDots : RE := RE.starL isDotChar

/-- Optional whitespace run `\s*` (inside brand alternations). -/
def wsStar : RE := RE.starG isJsSpace

/-- Greedy `+` over a character class. -/
def plusG (p : Char → Bool) : RE := RE.seq (RE.cls p) (RE.starG p)

/-- The keyword alternation `(?:a\/c|acct?|account|card|upi)` shared by all
bank patterns (alternatives in source order; `acct?` is `acc` plus an
optional greedy `t`). -/
def bankKeyword : RE :=
  RE.alt (relit ['a', '/', 'c'])
    (RE.alt (RE.seq (relit ['a', 'c', 'c']) (RE.opt (relit ['t'])))
      (RE.alt (relit ['a', 'c', 'c', 'o', 'u', 'n', 't'])
        (RE.alt (relit ['c', 'a', 'r', 'd']) (relit ['u', 'p', 'i']))))

/-- The optional mask run `(?:\*+|x+)?` of the bank patterns. -/
def maskOpt : RE :=
  RE.opt (RE.alt (plusG (fun c => c == '*')) (plusG (fun c => c == 'x')))

/-- Common tail of every bank pattern:
`.*?(?:a\/c|acct?|account|card|upi).*?(?:\*+|x+)?(\d{4})`. -/
def bankTail : RE :=
  RE.seq lazyDots (RE.seq bankKeyword (RE.seq lazyDots (RE.seq maskOpt RE.grpD4)))

/-- A bank pattern is its brand alternation followed by `bankTail`. -/
def bankRE (brand : RE) : RE := RE.seq brand bankTail

/-- `BANK_PATTERNS` of `accountMatcher.ts`, in declaration (object insertion)
order.  In every pattern the `(\d{4})` group embedded as `grpD4` is the
group the source reads: for the patterns whose brand alternation is itself
parenthesised (SBI, AXIS, KOTAK, YES, PNB, BOB, UNION) the digits are
`m[2]`, otherwise `m[1]`, and `m[2] || m[1] || ''` always selects the
digits because `(\d{4})` is mandatory and non-empty whenever the pattern
matches. -/
def BANK_PATTERNS : List (String × RE) :=
  [("SBI", bankRE (RE.alt (relit "sbi".data)
      (RE.seq (relit "state".data) (RE.seq wsStar (relit "bank".data))))),
   ("HDFC", bankRE (relit "hdfc".data)),
   ("ICICI", bankRE (relit "icici".data)),
   ("AXIS", bankRE (RE.alt (RE.seq (relit "axis".data) (RE.seq wsStar (relit "bank".data)))
      (relit "axis".data))),
   ("KOTAK", bankRE (RE.alt (relit "kotak".data) (relit "811".data))),
   ("YES", bankRE (RE.alt (RE.seq (relit "yes".data) (RE.seq wsStar (relit "bank".data)))
      (relit "yesbank".data))),
   ("PNB", bankRE (RE.alt (relit "pnb".data)
      (RE.seq (relit "punjab".data) (RE.seq wsStar (relit "national".data))))),
   ("BOB", bankRE (RE.alt (RE.seq (relit "bank".data) (RE.seq wsStar
      (RE.seq (relit "of".data) (RE.seq wsStar (relit "baroda".data)))))
      (relit "bob".data))),
   ("CANARA", bankRE (relit "canara".data)),
   ("UNION", bankRE (RE.alt (RE.seq (relit "union".data) (RE.seq wsStar (relit "bank".data)))
      (relit "ubi".data)))]

/-- `GENERIC_LAST4` of `accountMatcher.ts`:
`(?:a\/c|acct?|account|card|upi|vpa)[^\d]{0,20}(?:\*{0,6}|x{0,6})?(\d{4})`. -/
def GENERIC_LAST4 : RE :=
  RE.seq (RE.alt (relit ['a', '/', 'c'])
      (RE.alt (RE.seq (relit ['a', 'c', 'c']) (RE.opt (relit ['t'])))
        (RE.alt (relit "account".data)
          (RE.alt (relit "card".data) (RE.alt (relit "upi".data) (relit "vpa".data))))))
    (RE.seq (RE.repG 0 20 isNonDigit)
      (RE.seq (RE.opt (RE.alt (RE.repG 0 6 (fun c => c == '*'))
        (RE.repG 0 6 (fun c => c == 'x'))))
        RE.grpD4))

/-- The UPI-handle pattern `\b[\w.-]+@[a-z0-9.-]+\b` of `detectUpiHandle`
(the source applies it to the lower-cased text). -/
def upiHandleRE : RE :=
  RE.seq RE.wordB
    (RE.seq (plusG isWordDotDash)
      (RE.seq (relit ['@']) (RE.seq (plusG isLowAlnumDotDash) RE.wordB)))

/-! ### The text scanner functions -/

/-- Lower-cased character data of a string (JS `toLowerCase`, ASCII part). -/
def lowerData (text : String) : List Char :=
  text.data.map Char.toLower

/-- Result type of `detectSourceAccountFromText`:
`{ bank: string; last4: string | null }`. -/
structure SrcHit : Type where
  bank : String
  last4 : Option String
deriving DecidableEq

/-- The value `(m[2] || m[1] || '').slice(-4) || null` computed by the bank
branch of `detectSourceAccountFromText`, given the digits capture. -/
def last4Of (cap : Option (List Char)) : Option String :=
  let sel := match cap with
    | some d => d
    | none => []
  let sl := sel.drop (sel.length - 4)
  if sl = [] then none else some (String.mk sl)

/-- First bank pattern of the table that matches the text, together with its
recorded capture (the `for (const [bank, rx] of Object.entries(BANK_PATTERNS))`
loop of the source). -/
def firstBankHit : List (String × RE) → List Char → Option (String × Option (List Char))
  | [], _ => none
  | (bank, rx) :: rest, s =>
    match reSearch rx none s with
    | some (_, cap) => some (bank, cap)
    | none => firstBankHit rest s

/-- The generic-fallback branch of `detectSourceAccountFromText`
(`UNKNOWN` label, `last4: g[1]`). -/
def genericHit (low : List Char) : Option SrcHit :=
  match reSearch GENERIC_LAST4 none low with
  | some (_, cap) => some ⟨"UNKNOWN", cap.map String.mk⟩
  | none => none

/-- `detectSourceAccountFromText` of `accountMatcher.ts`.  The `i` flag of
the source patterns is modelled by matching the lower-cased text against
the lower-case patterns (the captured digits are unaffected by case). -/
def detectSourceAccountFromText (text : String) : Option SrcHit :=
  if text = "" then none
  else
    match firstBankHit BANK_PATTERNS (lowerData text) with
    | some (bank, cap) => some ⟨bank, last4Of cap⟩
    | none => genericHit (lowerData text)

/-- JS `Set`-like insertion: append unless already present. -/
def addTag (acc : List (List Char)) (t : List Char) : List (List Char) :=
  if t ∈ acc then acc else acc ++ [t]

/-- The `while ((m = re.exec(text)))` loop of `extractHashtags` over
`/#([A-Za-z0-9:_-]{2,32})/g`: at a `#`, the greedy group takes up to 32
tag characters and needs at least 2; the captured group is lower-cased and
added to the set, and scanning resumes after the match. -/
def scanTags : List Char → List (List Char) → List (List Char)
  | [], acc => acc
  | c :: rest, acc =>
    if c = '#' then
      let run := rest.takeWhile isTagChar
      if 2 ≤ run.length then
        scanTags (rest.drop (min run.length 32))
          (addTag acc ((run.take 32).map Char.toLower))
      else scanTags rest acc
    else scanTags rest acc
termination_by s _ => s.length
decreasing_by
  all_goals simp [List.length_drop]
  all_goals omega

/-- `extractHashtags` of `accountMatcher.ts`. -/
def extractHashtags (text : String) : List String :=
  if text = "" then [] else (scanTags text.data []).map String.mk

/-- Result type of `detectBankFromUpiText`: `{ code: string; name: string }`. -/
structure DetectedBank : Type where
  code : String
  name : String
deriving DecidableEq

/-- `HANDLE_MAP` of `accountMatcher.ts`, in declaration (object insertion)
order; `Record` lookup is association-list lookup. -/
def HANDLE_MAP : List (String × String) :=
  [("okhdfc", "HDFC"), ("hdfc", "HDFC"), ("hdfcbank", "HDFC"),
   ("okicici", "ICICI"), ("icici", "ICICI"),
   ("oksbi", "SBI"), ("sbi", "SBI"), ("yono", "SBI"),
   ("okaxis", "AXIS"), ("axis", "AXIS"), ("axisbank", "AXIS"),
   ("ybl", "YES"), ("yes", "YES"), ("yesbank", "YES"),
   ("kotak", "KOTAK"), ("kmb", "KOTAK"), ("okkotak", "KOTAK"),
   ("idfc", "IDFC"), ("idfcbank", "IDFC"),
   ("pnb", "PNB"),
   ("bob", "BOB"), ("barodampay", "BOB"),
   ("canara", "CANARA"), ("canarabank", "CANARA"),
   ("ubi", "UNION"), ("unionbank", "UNION"),
   ("federal", "FEDERAL"), ("fbl", "FEDERAL"),
   ("paytm", "PAYTM"), ("ppb", "PAYTM"),
   ("airtel", "AIRTEL"), ("airtelpayments", "AIRTEL")]

/-- `HANDLE_MAP[t]` (JS object property lookup). -/
def lookupHM (t : String) : Option String :=
  (HANDLE_MAP.find? (fun p => p.1 = t)).map (fun p => p.2)

/-- Splitter for `/[^a-z0-9]+/` followed by `.filter(Boolean)`: the maximal
runs of `[a-z0-9]` characters, in order. -/
def splitAlnumAux : List Char → List Char → List (List Char)
  | [], cur => if cur = [] then [] else [cur.reverse]
  | c :: rest, cur =>
    if isLowAlnum c then splitAlnumAux rest (c :: cur)
    else if cur = [] then splitAlnumAux rest []
    else cur.reverse :: splitAlnumAux rest []

/-- Tokens of `detectBankFromUpiText`:
`lower.split(/[^a-z0-9]+/).filter(Boolean)`. -/
def upiTokens (low : List Char) : List (List Char) :=
  splitAlnumAux low []

/-- The whole-token loop of `detectBankFromUpiText`: the tokens are tried in
text order and the first one that is a key of the handle map wins. -/
def firstTokenHit : List (List Char) → Option DetectedBank
  | [] => none
  | t :: rest =>
    match lookupHM (String.mk t) with
    | some nm => some ⟨String.mk t, nm⟩
    | none => firstTokenHit rest

/-- `isPrefixL needle l` decides whether `needle` is a prefix of `l`. -/
def isPrefixL : List Char → List Char → Bool
  | [], _ => true
  | _ :: _, [] => false
  | a :: as, b :: bs => a == b && isPrefixL as bs

/-- JS `hay.includes(needle)` on character lists (helper). -/
def includesAux (needle : List Char) : List Char → Bool
  | [] => isPrefixL needle []
  | c :: rest => isPrefixL needle (c :: rest) || includesAux needle rest

/-- JS `hay.includes(needle)`. -/
def includesL (hay needle : List Char) : Bool :=
  includesAux needle hay

/-- The substring fallback loop of `detectBankFromUpiText`: keys in map
declaration order, condition `lower.includes('@' + key) || lower.includes(key)`. -/
def firstKeyContained (low : List Char) : List (String × String) → Option DetectedBank
  | [] => none
  | (key, nm) :: rest =>
    if includesL low ('@' :: key.data) || includesL low key.data then some ⟨key, nm⟩
    else firstKeyContained low rest

/-- `detectBankFromUpiText` of `accountMatcher.ts`. -/
def detectBankFromUpiText (text : String) : Option DetectedBank :=
  if text = "" then none
  else
    match firstTokenHit (upiTokens (lowerData text)) with
    | some d => some d
    | none => firstKeyContained (lowerData text) HANDLE_MAP

/-- `detectUpiHandle` of `accountMatcher.ts`: first match of
`\b[\w.-]+@[a-z0-9.-]+\b` in the lower-cased text, as a string (`m[0]`). -/
def detectUpiHandle (text : String) : Option String :=
  if text = "" then none
  else
    match reSearch upiHandleRE none (lowerData text) with
    | some (m0, _) => some (String.mk m0)
    | none => none

/-! ### The account resolver of `TransactionsPage.tsx` (`handleSubmit`) -/

/-- `Account` of `types.ts`. -/
structure Account : Type where
  id : String
  nickname : String
  maskedNumber : String
deriving DecidableEq

/-- JS `s.endsWith(suffix)` on character lists. -/
def endsWithL (s sfx : List Char) : Bool :=
  isPrefixL sfx.reverse s.reverse

/-- The value of the `bankFromUpi` state at submission time: the effect of
`TransactionsPage.tsx` (lines 147–165) keeps it equal to
`detectBankFromUpiText(note)?.name ?? null` for the current note. -/
def bankFromUpi (note : String) : Option String :=
  (detectBankFromUpiText note).map DetectedBank.name

/-- The suffix-match step of `handleSubmit` (lines 81–85): if the scanner
yields a truthy `last4`, the first account whose `maskedNumber` ends with
it resolves the transaction. -/
def suffixAccountId (note : String) (accounts : List Account) : Option String :=
  match detectSourceAccountFromText note with
  | some hit =>
    match hit.last4 with
    | some l4 => (accounts.find? (fun a => endsWithL a.maskedNumber.data l4.data)).map Account.id
    | none => none
  | none => none

/-- The filter of the bank step (line 87):
`accounts.filter((a) => a.nickname.toLowerCase().includes(bank.toLowerCase()))`. -/
def bankNicknameMatches (bank : String) (accounts : List Account) : List Account :=
  accounts.filter (fun a => includesL (lowerData a.nickname) (lowerData bank))

/-- The auto-detection block of `handleSubmit` (lines 80–104), entered only
when no account id was chosen.  Returns the resolved id (`""` when
resolution failed) and the possibly extended account collection.  The list
match mirrors the source's `matches.length === 1` / `=== 0` checks; with
two or more matches neither branch fires and the id stays empty.
`freshId` stands for the `generateId('acct')` value of the placeholder
branch (`generateId` lives in `storage.ts`; it is modelled as a
parameter since it is randomized). -/
def autoResolve (note : String) (accounts : List Account) (freshId : String) :
    String × List Account :=
  match suffixAccountId note accounts with
  | some i => (i, accounts)
  | none =>
    match bankFromUpi note with
    | some bank =>
      match bankNicknameMatches bank accounts with
      | [a] => (a.id, accounts)
      | [] => (freshId, accounts ++ [⟨freshId, "Unlinked - " ++ bank, "****0000"⟩])
      | _ => ("", accounts)
    | none => ("", accounts)

/-- Outcome of a submission, one constructor per exit of the resolution part
of `handleSubmit`: the two `setError(...); return` sites that abort without
committing (lines 76–79: missing UPI handle; lines 105–108: could not
auto-detect) and the commit with the resolved account id and the account
collection as left by resolution (the placeholder branch is the only one
that extends it). -/
inductive SubmitOutcome : Type where
  | errMissingUpiHandle : SubmitOutcome
  | errCouldNotAutoDetect : SubmitOutcome
  | committed : String → List Account → SubmitOutcome
deriving DecidableEq

/-- Is the outcome a commit? -/
def SubmitOutcome.isCommitted : SubmitOutcome → Bool
  | .committed _ _ => true
  | _ => false

/-- The user-facing text each failure exit passes to `setError` in the
source (the commit path sets no failure message; the placeholder branch
additionally surfaces an informational notice). -/
def SubmitOutcome.message : SubmitOutcome → Option String
  | .errMissingUpiHandle =>
    some "UPI ID not found in reference. Please include a UPI handle like name@okhdfc or mob@ybl in the note."
  | .errCouldNotAutoDetect =>
    some "Could not auto-detect account from UPI reference. Please include bank hints or last 4 digits (e.g., ****1234), or visit Accounts page to add your bank account first."
  | .committed _ _ => none

/-- The account-resolution part of `handleSubmit` in `TransactionsPage.tsx`
(lines 72–108) followed by the transaction commit (lines 110–143; both the
edit and the create path store `resolvedAccountId` as the transaction's
`accountId`).  `accountId` is the explicitly chosen account id, `""` when
none was chosen (the initial state of the form field). -/
def handleSubmit (accountId : String) (note : String) (accounts : List Account)
    (freshId : String) : SubmitOutcome :=
  if accountId = "" ∧ detectUpiHandle note = none then .errMissingUpiHandle
  else
    let pr := if accountId = "" then autoResolve note accounts freshId
              else (accountId, accounts)
    if pr.1 = "" then .errCouldNotAutoDetect else .committed pr.1 pr.2

/-! ### Derived notions used by the specification statements -/

/-- Does the pattern match somewhere in the text (JS `text.match(rx)` is
not `null`)? -/
def patMatches (rx : RE) (s : List Char) : Bool :=
  (reSearch rx none s).isSome

/-- The capture recorded by the leftmost match of a pattern. -/
def capOfPat (rx : RE) (s : List Char) : Option (List Char) :=
  match reSearch rx none s with
  | some (_, c) => c
  | none => none

/-- Caps that are recorded by `grpD4` (or absent): four digit characters. -/
def goodCap4 (c : Option (List Char)) : Prop :=
  ∀ d, c = some d → d.length = 4 ∧ d.all Char.isDigit = true

/-- Does the regex end (through sequencing) in the capturing group? -/
def tailGrpB : RE → Bool
  | RE.grpD4 => true
  | RE.seq _ b => tailGrpB b
  | _ => false

/-- Tags that `scanTags` can produce: length 2 to 32, all characters in the
tag class and already lower-case. -/
def GoodTag (t : List Char) : Prop :=
  2 ≤ t.length ∧ t.length ≤ 32 ∧ ∀ c ∈ t, isTagChar c = true ∧ Char.toLower c = c

/-- Rendering a tag list back into hashtag text (`#t1 #t2 ...`), used to
state idempotence of `extractHashtags` under re-extraction. -/
def renderTags : List String → String
  | [] => ""
  | [t] => "#" ++ t
  | t :: t2 :: ts => "#" ++ t ++ " " ++ renderTags (t2 :: ts)

/-! ### Claims about the resolver -/

set_option maxRecDepth 4096

/-- Claim C1, counterexample: at the spec's resolution scenario 4 the note
`"Just a regular note"` yields no UPI handle, no bank signal and no suffix
signal, and the resolver rejects it at the UPI-handle gate (the
`MissingUpiHandle` outcome), not with the later could-not-auto-detect
(`UnresolvableAccount`) outcome the claim names. -/
theorem handleSubmit_scenario4_missing_handle_not_unresolvable :
    detectUpiHandle "Just a regular note" = none ∧
    detectSourceAccountFromText "Just a regular note" = none ∧
    detectBankFromUpiText "Just a regular note" = none ∧
    handleSubmit "" "Just a regular note" [] "acct_1" = SubmitOutcome.errMissingUpiHandle ∧
    handleSubmit "" "Just a regular note" [] "acct_1" ≠ SubmitOutcome.errCouldNotAutoDetect ∧
    (handleSubmit "" "Just a regular note" [] "acct_1").message
      = some "UPI ID not found in reference. Please include a UPI handle like name@okhdfc or mob@ybl in the note." := by
  decide

/-- Claim C1 (amended): for a submission with no explicitly chosen account id
and a note from which no UPI handle, no bank signal and no suffix signal can
be extracted, the resolver fails with the `MissingUpiHandle` outcome (the
UPI-handle requirement of step 2 precedes the signal checks) and no
transaction is committed. -/
theorem handleSubmit_noSignals_missingUpiHandle (note : String) (accounts : List Account)
    (freshId : String) (h1 : detectUpiHandle note = none)
    (_h2 : detectSourceAccountFromText note = none)
    (_h3 : detectBankFromUpiText note = none) :
    handleSubmit "" note accounts freshId = SubmitOutcome.errMissingUpiHandle ∧
    (handleSubmit "" note accounts freshId).isCommitted = false := by
  constructor <;> simp [handleSubmit, h1, SubmitOutcome.isCommitted]

/-- Witness for `handleSubmit_noSignals_missingUpiHandle`. -/
theorem handleSubmit_noSignals_missingUpiHandle_witness :
    handleSubmit "" "Some note 9" [] "acct_1" = SubmitOutcome.errMissingUpiHandle ∧
    (handleSubmit "" "Some note 9" [] "acct_1").isCommitted = false :=
  handleSubmit_noSignals_missingUpiHandle "Some note 9" [] "acct_1"
    (by decide) (by decide) (by decide)

/-- Claim C2, counterexample: at the spec's resolution scenario 3 (two HDFC
accounts, note `"Payment via user@okhdfc"`, no suffix) the submission is
rejected with the same generic could-not-auto-detect outcome that a note
with no bank signal and no suffix signal at all produces — there is no
distinct `AmbiguousBankMatch` outcome in the code. -/
theorem handleSubmit_scenario3_no_distinct_ambiguous_outcome :
    handleSubmit "" "Payment via user@okhdfc"
      [⟨"a1", "HDFC Savings", "****1111"⟩, ⟨"a2", "HDFC Current", "****2222"⟩] "acct_9"
      = SubmitOutcome.errCouldNotAutoDetect ∧
    suffixAccountId "pay user@zzz9" [] = none ∧
    bankFromUpi "pay user@zzz9" = none ∧
    handleSubmit "" "pay user@zzz9" [] "acct_9" = SubmitOutcome.errCouldNotAutoDetect ∧
    (handleSubmit "" "Payment via user@okhdfc"
        [⟨"a1", "HDFC Savings", "****1111"⟩, ⟨"a2", "HDFC Current", "****2222"⟩] "acct_9").message
      = (handleSubmit "" "pay user@zzz9" [] "acct_9").message := by
  decide

/-- Claim C2 (amended): for every submission with no explicitly chosen
account id, a UPI handle in the note, no suffix match, and a detected UPI
bank whose nickname filter yields two or more accounts, the resolver fails
— no transaction is committed and no placeholder is created (the account
collection is left unchanged) — but with the same generic
could-not-auto-detect outcome as the no-signal case (whose message does ask
for the last-4 digits), not with a distinct `AmbiguousBankMatch` outcome. -/
theorem handleSubmit_ambiguousBank_fails_generic (note : String) (accounts : List Account)
    (freshId : String) (b : String)
    (h1 : detectUpiHandle note ≠ none)
    (hs : suffixAccountId note accounts = none)
    (hb : bankFromUpi note = some b)
    (hm : 2 ≤ (bankNicknameMatches b accounts).length) :
    handleSubmit "" note accounts freshId = SubmitOutcome.errCouldNotAutoDetect ∧
    autoResolve note accounts freshId = ("", accounts) := by
  obtain ⟨x, y, t, hl⟩ : ∃ x y t, bankNicknameMatches b accounts = x :: y :: t := by
    rcases l : bankNicknameMatches b accounts with - | ⟨x, - | ⟨y, t⟩⟩
    · rw [l] at hm; simp at hm
    · rw [l] at hm; simp at hm
    · exact ⟨x, y, t, rfl⟩
  have ha : autoResolve note accounts freshId = ("", accounts) := by
    simp [autoResolve, hs, hb, hl]
  refine ⟨?_, ha⟩
  simp [handleSubmit, h1, ha]

/-- Witness for `handleSubmit_ambiguousBank_fails_generic` (the spec's
resolution scenario 3). -/
theorem handleSubmit_ambiguousBank_fails_generic_witness :
    handleSubmit "" "Payment via user@okhdfc"
      [⟨"a1", "HDFC Savings", "****1111"⟩, ⟨"a2", "HDFC Current", "****2222"⟩] "acct_7"
      = SubmitOutcome.errCouldNotAutoDetect ∧
    autoResolve "Payment via user@okhdfc"
      [⟨"a1", "HDFC Savings", "****1111"⟩, ⟨"a2", "HDFC Current", "****2222"⟩] "acct_7"
      = ("", [⟨"a1", "HDFC Savings", "****1111"⟩, ⟨"a2", "HDFC Current", "****2222"⟩]) :=
  handleSubmit_ambiguousBank_fails_generic "Payment via user@okhdfc"
    [⟨"a1", "HDFC Savings", "****1111"⟩, ⟨"a2", "HDFC Current", "****2222"⟩] "acct_7" "HDFC"
    (by decide) (by decide) (by decide) (by decide)

/-- Claim C4: with note `"Payment to user@okhdfc"`, no explicitly chosen
account id and an empty account collection, resolution synthesizes the
placeholder `{ nickname: "Unlinked - HDFC", maskedNumber: "****0000" }`
under the fresh id, appends it to the account collection, and commits the
transaction with the placeholder's id (here `freshId` stands for the value
of `generateId('acct')`, which is never the empty string). -/
theorem handleSubmit_scenario1_placeholder (freshId : String) (hf : freshId ≠ "") :
    detectUpiHandle "Payment to user@okhdfc" = some "user@okhdfc" ∧
    bankFromUpi "Payment to user@okhdfc" = some "HDFC" ∧
    handleSubmit "" "Payment to user@okhdfc" [] freshId
      = SubmitOutcome.committed freshId [⟨freshId, "Unlinked - HDFC", "****0000"⟩] := by
  have key : handleSubmit "" "Payment to user@okhdfc" [] freshId
      = if freshId = "" then SubmitOutcome.errCouldNotAutoDetect
        else SubmitOutcome.committed freshId [⟨freshId, "Unlinked - HDFC", "****0000"⟩] := rfl
  exact ⟨by decide, by decide, by rw [key, if_neg hf]⟩

/-- Witness for `handleSubmit_scenario1_placeholder`. -/
theorem handleSubmit_scenario1_placeholder_witness :
    detectUpiHandle "Payment to user@okhdfc" = some "user@okhdfc" ∧
    bankFromUpi "Payment to user@okhdfc" = some "HDFC" ∧
    handleSubmit "" "Payment to user@okhdfc" [] "acct_42"
      = SubmitOutcome.committed "acct_42" [⟨"acct_42", "Unlinked - HDFC", "****0000"⟩] :=
  handleSubmit_scenario1_placeholder "acct_42" (by decide)

/-- Claim C5: when the caller explicitly chose an account id, the resolver
accepts it unconditionally — the transaction is committed with the chosen
id for every note whatsoever (no scanner signal is consulted), and the
account collection is left unchanged (no placeholder creation). -/
theorem handleSubmit_explicitChoice_wins (accountId note : String) (accounts : List Account)
    (freshId : String) (h : accountId ≠ "") :
    handleSubmit accountId note accounts freshId = SubmitOutcome.committed accountId accounts := by
  simp [handleSubmit, h]

/-- Witness for `handleSubmit_explicitChoice_wins`: the chosen id wins even
though the note implies a different bank (YES, via the `ybl` handle). -/
theorem handleSubmit_explicitChoice_wins_witness :
    handleSubmit "chosen_1" "Payment via user@ybl"
      [⟨"a1", "HDFC Savings", "****1111"⟩] "acct_9"
      = SubmitOutcome.committed "chosen_1" [⟨"a1", "HDFC Savings", "****1111"⟩] :=
  handleSubmit_explicitChoice_wins "chosen_1" "Payment via user@ybl"
    [⟨"a1", "HDFC Savings", "****1111"⟩] "acct_9" (by decide)

/-- Claim C6, counterexample: at the spec's resolution scenario 2 the note
`"Payment via user@okhdfc with ****1234"` contains none of the
account/card/UPI keywords the bank patterns and the generic fallback
require, so `detectSourceAccountFromText` yields no signal at all — the
suffix-match step of the claim does not fire. -/
theorem detectSource_scenario2_no_suffix_signal :
    detectSourceAccountFromText "Payment via user@okhdfc with ****1234" = none ∧
    suffixAccountId "Payment via user@okhdfc with ****1234"
      [⟨"a1", "HDFC Savings", "****1234"⟩] = none := by
  decide

/-- Claim C6 (amended): at resolution scenario 2 the submission does resolve
directly to the existing account, without creating a placeholder and for
any fresh-id value — but via the unique bank-nickname match of step 4
(bank HDFC detected from the handle), not via the suffix match of step 3,
because `detectSourceAccountFromText` yields no suffix on this note. -/
theorem handleSubmit_scenario2_resolves_via_bankMatch (freshId : String) :
    handleSubmit "" "Payment via user@okhdfc with ****1234"
      [⟨"a1", "HDFC Savings", "****1234"⟩] freshId
      = SubmitOutcome.committed "a1" [⟨"a1", "HDFC Savings", "****1234"⟩] ∧
    bankFromUpi "Payment via user@okhdfc with ****1234" = some "HDFC" ∧
    bankNicknameMatches "HDFC" [⟨"a1", "HDFC Savings", "****1234"⟩]
      = [⟨"a1", "HDFC Savings", "****1234"⟩] :=
  ⟨rfl, rfl, rfl⟩

/-! ### Claim C3: token order in `detectBankFromUpiText` -/

/-- If the token list has a first element that is a key of the handle map,
the whole-token loop returns that token with its bank. -/
theorem firstTokenHit_of_find (ts : List (List Char)) (tk : List Char) (nm : String)
    (hf : ts.find? (fun t => (lookupHM (String.mk t)).isSome) = some tk)
    (hn : lookupHM (String.mk tk) = some nm) :
    firstTokenHit ts = some ⟨String.mk tk, nm⟩ := by
  induction ts with
  | nil => simp at hf
  | cons h t ih =>
    rw [List.find?_cons] at hf
    cases hl : lookupHM (String.mk h) with
    | some nm2 =>
      simp only [hl, Option.isSome_some] at hf
      cases hf
      rw [hl] at hn
      cases hn
      simp [firstTokenHit, hl]
    | none =>
      simp only [hl, Option.isSome_none] at hf
      simp [firstTokenHit, hl, ih hf]

/-- If no token is a key of the handle map, the whole-token loop fails. -/
theorem firstTokenHit_none (ts : List (List Char))
    (h : ∀ tk ∈ ts, lookupHM (String.mk tk) = none) :
    firstTokenHit ts = none := by
  induction ts with
  | nil => rfl
  | cons a t ih =>
    simp [firstTokenHit, h a (by simp)]
    exact ih (fun tk htk => h tk (by simp [htk]))

/-- Claim C3, counterexample: the text `"ybl okhdfc"` tokenizes to two whole
tokens that are both keys of the handle map, `okhdfc` is declared earlier in
the map than `ybl`, yet `detectBankFromUpiText` returns `ybl`/`YES` — the
token loop follows the order of the tokens in the text, not the handle map's
declaration order. -/
theorem detectBank_tokenOrder_counterexample :
    upiTokens (lowerData "ybl okhdfc") = [['y', 'b', 'l'], ['o', 'k', 'h', 'd', 'f', 'c']] ∧
    lookupHM "ybl" = some "YES" ∧
    lookupHM "okhdfc" = some "HDFC" ∧
    HANDLE_MAP.findIdx (fun p => p.1 == "okhdfc") < HANDLE_MAP.findIdx (fun p => p.1 == "ybl") ∧
    detectBankFromUpiText "ybl okhdfc" = some ⟨"ybl", "YES"⟩ ∧
    detectBankFromUpiText "ybl okhdfc" ≠ some ⟨"okhdfc", "HDFC"⟩ := by
  decide

/-- Claim C3 (amended): when the tokenization of the lower-cased text (split
on non-alphanumeric boundaries) contains whole tokens that are keys of the
handle map, `detectBankFromUpiText` returns the code and bank of the first
such token in the text's token order (not in the handle map's declaration
order); the substring/at-suffix containment fallback, which does run in
handle-map key order, is consulted only when no whole token is a key, and
the function returns its first hit or no signal. -/
theorem detectBank_firstTokenKey_wins :
    (∀ (text : String) (tk : List Char) (nm : String),
       (upiTokens (lowerData text)).find? (fun t => (lookupHM (String.mk t)).isSome) = some tk →
       lookupHM (String.mk tk) = some nm →
       detectBankFromUpiText text = some ⟨String.mk tk, nm⟩) ∧
    (∀ (text : String), text ≠ "" →
       (∀ tk ∈ upiTokens (lowerData text), lookupHM (String.mk tk) = none) →
       detectBankFromUpiText text = firstKeyContained (lowerData text) HANDLE_MAP) := by
  constructor
  · intro text tk nm hf hn
    by_cases ht : text = ""
    · subst ht; simp [upiTokens, lowerData, splitAlnumAux] at hf
    · rw [detectBankFromUpiText, if_neg ht, firstTokenHit_of_find _ tk nm hf hn]
  · intro text ht hall
    rw [detectBankFromUpiText, if_neg ht, firstTokenHit_none _ hall]

/-- Witness for `detectBank_firstTokenKey_wins`: on `"ybl okhdfc"` the first
token in text order wins. -/
theorem detectBank_firstTokenKey_wins_witness :
    detectBankFromUpiText "ybl okhdfc" = some ⟨String.mk ['y', 'b', 'l'], "YES"⟩ :=
  detectBank_firstTokenKey_wins.1 "ybl okhdfc" ['y', 'b', 'l'] "YES" (by decide) (by decide)

/-! ### Claim C7: declaration-order priority of the bank patterns -/

/-- The bank-pattern loop returns the earliest-declared matching entry:
if entry `i` matches, there is a minimal matching index `k ≤ i`, every
earlier entry fails, and the loop returns entry `k` with its capture. -/
theorem firstBankHit_min (ps : List (String × RE)) (s : List Char) :
    ∀ (i : Nat) (hi : i < ps.length), patMatches (ps.get ⟨i, hi⟩).2 s = true →
      ∃ (k : Nat) (hk : k < ps.length), k ≤ i ∧
        patMatches (ps.get ⟨k, hk⟩).2 s = true ∧
        (∀ (l : Nat) (hl : l < ps.length), l < k → patMatches (ps.get ⟨l, hl⟩).2 s = false) ∧
        firstBankHit ps s = some ((ps.get ⟨k, hk⟩).1, capOfPat (ps.get ⟨k, hk⟩).2 s) := by
  induction ps with
  | nil => intro i hi; exact absurd hi (by simp)
  | cons p rest ih =>
    obtain ⟨b, rx⟩ := p
    intro i hi hpm
    cases hm : reSearch rx none s with
    | some pr =>
      refine ⟨0, by simp, Nat.zero_le i, ?_, ?_, ?_⟩
      · simp [patMatches, hm]
      · intro l hl hl0; exact absurd hl0 (Nat.not_lt_zero l)
      · obtain ⟨m0, cap⟩ := pr
        simp [firstBankHit, hm, capOfPat]
    | none =>
      cases i with
      | zero =>
        rw [List.get] at hpm
        simp [patMatches, hm] at hpm
      | succ i2 =>
        have hi2 : i2 < rest.length := by simpa using Nat.lt_of_succ_lt_succ hi
        have hpm2 : patMatches (rest.get ⟨i2, hi2⟩).2 s = true := hpm
        obtain ⟨k, hk, hki, hkm, hmin, heq⟩ := ih i2 hi2 hpm2
        refine ⟨k + 1, by simpa using Nat.succ_lt_succ hk, Nat.succ_le_succ hki, hkm, ?_, ?_⟩
        · intro l hl hlk
          cases l with
          | zero => simp [patMatches, hm]
          | succ l2 =>
            exact hmin l2 (by simpa using Nat.lt_of_succ_lt_succ hl) (Nat.lt_of_succ_lt_succ hlk)
        · simp only [firstBankHit, hm]
          exact heq

/-- When no bank pattern matches, the loop fails. -/
theorem firstBankHit_nomatch (ps : List (String × RE)) (s : List Char)
    (h : ∀ (l : Nat) (hl : l < ps.length), patMatches (ps.get ⟨l, hl⟩).2 s = false) :
    firstBankHit ps s = none := by
  induction ps with
  | nil => rfl
  | cons p rest ih =>
    obtain ⟨b, rx⟩ := p
    have h0 : patMatches rx s = false := h 0 (by simp)
    have hm : reSearch rx none s = none := by
      cases hm2 : reSearch rx none s with
      | none => rfl
      | some pr => rw [patMatches, hm2] at h0; cases h0
    simp only [firstBankHit, hm]
    exact ih (fun l hl => h (l + 1) (by simpa using Nat.succ_lt_succ hl))

/-- Claim C7: when a text satisfies the bank patterns of two or more distinct
banks of the table, `detectSourceAccountFromText` returns the
earliest-declared matching bank, with that pattern's captured suffix run
through `(m[2] || m[1] || '').slice(-4) || null`; the generic `UNKNOWN`
fallback is consulted only when no bank pattern matches. -/
theorem detectSource_declarationOrder_priority :
    (∀ (text : String) (i j : Nat) (hi : i < BANK_PATTERNS.length)
       (hj : j < BANK_PATTERNS.length), i ≠ j → text ≠ "" →
       patMatches (BANK_PATTERNS.get ⟨i, hi⟩).2 (lowerData text) = true →
       patMatches (BANK_PATTERNS.get ⟨j, hj⟩).2 (lowerData text) = true →
       ∃ (k : Nat) (hk : k < BANK_PATTERNS.length), k ≤ i ∧ k ≤ j ∧
         patMatches (BANK_PATTERNS.get ⟨k, hk⟩).2 (lowerData text) = true ∧
         (∀ (l : Nat) (hl : l < BANK_PATTERNS.length), l < k →
            patMatches (BANK_PATTERNS.get ⟨l, hl⟩).2 (lowerData text) = false) ∧
         detectSourceAccountFromText text
           = some ⟨(BANK_PATTERNS.get ⟨k, hk⟩).1,
               last4Of (capOfPat (BANK_PATTERNS.get ⟨k, hk⟩).2 (lowerData text))⟩) ∧
    (∀ (text : String), text ≠ "" →
       (∀ (l : Nat) (hl : l < BANK_PATTERNS.length),
          patMatches (BANK_PATTERNS.get ⟨l, hl⟩).2 (lowerData text) = false) →
       detectSourceAccountFromText text = genericHit (lowerData text)) := by
  constructor
  · intro text i j hi hj _ ht hpi hpj
    obtain ⟨k, hk, hki, hkm, hmin, heq⟩ := firstBankHit_min BANK_PATTERNS (lowerData text) i hi hpi
    have hkj : k ≤ j := by
      by_contra hco
      have := hmin j hj (Nat.lt_of_not_le hco)
      rw [hpj] at this
      cases this
    refine ⟨k, hk, hki, hkj, hkm, hmin, ?_⟩
    rw [detectSourceAccountFromText, if_neg ht, heq]
  · intro text ht hall
    rw [detectSourceAccountFromText, if_neg ht, firstBankHit_nomatch _ _ hall]

/-- Witness for `detectSource_declarationOrder_priority`: the text
`"sbi upi 1234 hdfc upi 5678"` satisfies both the SBI pattern (index 0) and
the HDFC pattern (index 1), and the result comes from the earliest table
entry. -/
theorem detectSource_declarationOrder_priority_witness :
    ∃ (k : Nat) (hk : k < BANK_PATTERNS.length), k ≤ 0 ∧ k ≤ 1 ∧
      patMatches (BANK_PATTERNS.get ⟨k, hk⟩).2 (lowerData "sbi upi 1234 hdfc upi 5678") = true ∧
      (∀ (l : Nat) (hl : l < BANK_PATTERNS.length), l < k →
         patMatches (BANK_PATTERNS.get ⟨l, hl⟩).2 (lowerData "sbi upi 1234 hdfc upi 5678")
           = false) ∧
      detectSourceAccountFromText "sbi upi 1234 hdfc upi 5678"
        = some ⟨(BANK_PATTERNS.get ⟨k, hk⟩).1,
            last4Of (capOfPat (BANK_PATTERNS.get ⟨k, hk⟩).2
              (lowerData "sbi upi 1234 hdfc upi 5678"))⟩ :=
  detectSource_declarationOrder_priority.1 "sbi upi 1234 hdfc upi 5678" 0 1
    (by decide) (by decide) (by decide) (by decide) (by decide) (by decide)

/-! ### Claim C9: the `last4` field is always four digits when present -/

/-- Every success of `starLRun` factors through the continuation, with the
unchanged capture. -/
theorem starLRun_inv {R : Type} (p : Char → Bool) (cap : Option (List Char)) (k : MK R)
    (P : R → Prop) (hk : ∀ p2 s2 res, k cap p2 s2 = some res → P res) :
    ∀ (prev : Option Char) (s : List Char) (res : R),
      starLRun p cap k prev s = some res → P res := by
  intro prev s
  induction s generalizing prev with
  | nil => intro res h; exact hk _ _ _ h
  | cons c rest ih =>
    intro res h
    rw [starLRun] at h
    cases hk0 : k cap prev (c :: rest) with
    | some r => rw [hk0] at h; cases h; exact hk _ _ _ hk0
    | none =>
      rw [hk0] at h
      by_cases hp : p c = true
      · rw [if_pos hp] at h; exact ih _ _ h
      · rw [if_neg hp] at h; cases h

/-- Every success of `starGRun` factors through the continuation, with the
unchanged capture. -/
theorem starGRun_inv {R : Type} (p : Char → Bool) (cap : Option (List Char)) (k : MK R)
    (P : R → Prop) (hk : ∀ p2 s2 res, k cap p2 s2 = some res → P res) :
    ∀ (prev : Option Char) (s : List Char) (res : R),
      starGRun p cap k prev s = some res → P res := by
  intro prev s
  induction s generalizing prev with
  | nil => intro res h; exact hk _ _ _ h
  | cons c rest ih =>
    intro res h
    rw [starGRun] at h
    by_cases hp : p c = true
    · rw [if_pos hp] at h
      cases hrec : starGRun p cap k (some c) rest with
      | some r => rw [hrec] at h; cases h; exact ih _ _ hrec
      | none => rw [hrec] at h; exact hk _ _ _ h
    · rw [if_neg hp] at h; exact hk _ _ _ h

/-- Every success of `repGRun` factors through the continuation, with the
unchanged capture. -/
theorem repGRun_inv {R : Type} (p : Char → Bool) (cap : Option (List Char)) (k : MK R)
    (P : R → Prop) (hk : ∀ p2 s2 res, k cap p2 s2 = some res → P res) :
    ∀ (lo hi : Nat) (prev : Option Char) (s : List Char) (res : R),
      repGRun p cap k lo hi prev s = some res → P res := by
  intro lo hi
  induction hi generalizing lo with
  | zero =>
    intro prev s res h
    rw [repGRun] at h
    by_cases hlo : lo = 0
    · rw [if_pos hlo] at h; exact hk _ _ _ h
    · rw [if_neg hlo] at h; cases h
  | succ hi2 ih =>
    intro prev s res h
    cases s with
    | nil =>
      rw [repGRun] at h
      by_cases hlo : lo = 0
      · rw [if_pos hlo] at h; exact hk _ _ _ h
      · rw [if_neg hlo] at h; cases h
    | cons c rest =>
      rw [repGRun] at h
      by_cases hp : p c = true
      · rw [if_pos hp] at h
        cases hrec : repGRun p cap k (lo - 1) hi2 (some c) rest with
        | some r => rw [hrec] at h; cases h; exact ih _ _ _ _ hrec
        | none =>
          rw [hrec] at h
          by_cases hlo : lo = 0
          · rw [if_pos hlo] at h; exact hk _ _ _ h
          · rw [if_neg hlo] at h; cases h
      · rw [if_neg hp] at h
        by_cases hlo : lo = 0
        · rw [if_pos hlo] at h; exact hk _ _ _ h
        · rw [if_neg hlo] at h; cases h

/-- Capture invariant of the matcher: if the incoming capture satisfies `C`
(a predicate that holds of every capture `grpD4` can record), then every
success factors through a continuation call whose capture satisfies `C`. -/
theorem reM_inv {R : Type} (P : R → Prop) (C : Option (List Char) → Prop)
    (hC4 : ∀ c1 c2 c3 c4 : Char, c1.isDigit = true → c2.isDigit = true →
      c3.isDigit = true → c4.isDigit = true → C (some [c1, c2, c3, c4])) :
    ∀ (r : RE) (cap : Option (List Char)) (prev : Option Char) (s : List Char) (k : MK R),
      C cap →
      (∀ c2 p2 s2 res, C c2 → k c2 p2 s2 = some res → P res) →
      ∀ res, reM r cap prev s k = some res → P res := by
  intro r
  induction r with
  | eps =>
    intro cap prev s k hc hk res h
    exact hk _ _ _ _ hc h
  | cls p =>
    intro cap prev s k hc hk res h
    cases s with
    | nil => cases h
    | cons c rest =>
      rw [reM] at h
      by_cases hp : p c = true
      · rw [if_pos hp] at h; exact hk _ _ _ _ hc h
      · rw [if_neg hp] at h; cases h
  | seq a b iha ihb =>
    intro cap prev s k hc hk res h
    rw [reM] at h
    exact iha cap prev s _ hc
      (fun c2 p2 s2 res2 hc2 hmid => ihb c2 p2 s2 k hc2 hk res2 hmid) res h
  | alt a b iha ihb =>
    intro cap prev s k hc hk res h
    rw [reM] at h
    cases ha : reM a cap prev s k with
    | some r2 => rw [ha] at h; cases h; exact iha cap prev s k hc hk _ ha
    | none => rw [ha] at h; exact ihb cap prev s k hc hk res h
  | opt a iha =>
    intro cap prev s k hc hk res h
    rw [reM] at h
    cases ha : reM a cap prev s k with
    | some r2 => rw [ha] at h; cases h; exact iha cap prev s k hc hk _ ha
    | none => rw [ha] at h; exact hk _ _ _ _ hc h
  | starL p =>
    intro cap prev s k hc hk res h
    exact starLRun_inv p cap k P (fun p2 s2 res2 h2 => hk cap p2 s2 res2 hc h2) prev s res h
  | starG p =>
    intro cap prev s k hc hk res h
    exact starGRun_inv p cap k P (fun p2 s2 res2 h2 => hk cap p2 s2 res2 hc h2) prev s res h
  | repG lo hi p =>
    intro cap prev s k hc hk res h
    exact repGRun_inv p cap k P (fun p2 s2 res2 h2 => hk cap p2 s2 res2 hc h2) lo hi prev s res h
  | grpD4 =>
    intro cap prev s k hc hk res h
    match s with
    | [] => cases h
    | [c1] => cases h
    | [c1, c2] => cases h
    | [c1, c2, c3] => cases h
    | c1 :: c2 :: c3 :: c4 :: rest =>
      rw [reM] at h
      by_cases hd : (c1.isDigit && c2.isDigit && c3.isDigit && c4.isDigit) = true
      · rw [if_pos hd] at h
        simp only [Bool.and_eq_true] at hd
        exact hk _ _ _ _ (hC4 c1 c2 c3 c4 hd.1.1.1 hd.1.1.2 hd.1.2 hd.2) h
      · rw [if_neg hd] at h; cases h
  | wordB =>
    intro cap prev s k hc hk res h
    rw [reM] at h
    by_cases hb : isWordOpt prev ≠ isWordOpt s.head?
    · rw [if_pos hb] at h; exact hk _ _ _ _ hc h
    · rw [if_neg hb] at h; cases h

/-- For a pattern ending in `grpD4`, every success reaches the continuation
with a present capture. -/
theorem reM_tailSome {R : Type} (P : R → Prop) :
    ∀ (r : RE), tailGrpB r = true →
      ∀ (cap : Option (List Char)) (prev : Option Char) (s : List Char) (k : MK R),
        (∀ c2 p2 s2 res, c2.isSome = true → k c2 p2 s2 = some res → P res) →
        ∀ res, reM r cap prev s k = some res → P res := by
  intro r
  induction r with
  | seq a b iha ihb =>
    intro ht cap prev s k hk res h
    rw [reM] at h
    have hvia : ∃ c2 p2 s2, reM b c2 p2 s2 k = some res := by
      refine reM_inv (fun res2 => ∃ c2 p2 s2, reM b c2 p2 s2 k = some res2)
        (fun _ => True) (fun _ _ _ _ _ _ _ _ => trivial) a cap prev s _ trivial ?_ res h
      intro c2 p2 s2 res2 _ hmid
      exact ⟨c2, p2, s2, hmid⟩
    obtain ⟨c2, p2, s2, hmid⟩ := hvia
    exact ihb ht c2 p2 s2 k hk res hmid
  | grpD4 =>
    intro ht cap prev s k hk res h
    match s with
    | [] => cases h
    | [c1] => cases h
    | [c1, c2] => cases h
    | [c1, c2, c3] => cases h
    | c1 :: c2 :: c3 :: c4 :: rest =>
      rw [reM] at h
      by_cases hd : (c1.isDigit && c2.isDigit && c3.isDigit && c4.isDigit) = true
      · rw [if_pos hd] at h
        exact hk (some [c1, c2, c3, c4]) (some c4) rest res rfl h
      · rw [if_neg hd] at h; cases h
  | eps => intro ht; cases ht
  | cls p => intro ht; cases ht
  | alt a b iha ihb => intro ht; cases ht
  | opt a iha => intro ht; cases ht
  | starL p => intro ht; cases ht
  | starG p => intro ht; cases ht
  | repG lo hi p => intro ht; cases ht
  | wordB => intro ht; cases ht

/-- A successful attempt of a `tailGrpB` pattern records four digits. -/
theorem reAttempt_capture (rx : RE) (hrx : tailGrpB rx = true)
    (prev : Option Char) (s m0 : List Char) (cap : Option (List Char))
    (h : reAttempt rx prev s = some (m0, cap)) :
    ∃ d, cap = some d ∧ d.length = 4 ∧ d.all Char.isDigit = true := by
  rw [reAttempt] at h
  cases hm : reM rx none prev s
      (fun cap2 _ rest => some (rest, cap2) :
        MK (List Char × Option (List Char))) with
  | none => rw [hm] at h; cases h
  | some pr =>
    obtain ⟨rest, c⟩ := pr
    rw [hm] at h
    have hcap : cap = c := by cases h; rfl
    subst hcap
    have hsome : cap.isSome = true := by
      refine reM_tailSome (fun res : List Char × Option (List Char) => res.2.isSome = true)
        rx hrx none prev s _ ?_ (rest, cap) hm
      intro c2 p2 s2 res hs2 hres
      cases hres
      exact hs2
    have hgood : goodCap4 cap := by
      refine reM_inv (fun res : List Char × Option (List Char) => goodCap4 res.2)
        goodCap4 ?_ rx none prev s _ ?_ ?_ (rest, cap) hm
      · intro c1 c2 c3 c4 h1 h2 h3 h4 d hd
        cases hd
        exact ⟨rfl, by simp [h1, h2, h3, h4]⟩
      · intro d hd; cases hd
      · intro c2 p2 s2 res hc2 hres
        cases hres
        exact hc2
    obtain ⟨d, hd⟩ := Option.isSome_iff_exists.mp hsome
    exact ⟨d, hd, hgood d hd⟩

/-- A successful search of a `tailGrpB` pattern records four digits. -/
theorem reSearch_capture (rx : RE) (hrx : tailGrpB rx = true) :
    ∀ (prev : Option Char) (s m0 : List Char) (cap : Option (List Char)),
      reSearch rx prev s = some (m0, cap) →
      ∃ d, cap = some d ∧ d.length = 4 ∧ d.all Char.isDigit = true := by
  intro prev s
  induction s generalizing prev with
  | nil => intro m0 cap h; exact reAttempt_capture rx hrx prev [] m0 cap h
  | cons c rest ih =>
    intro m0 cap h
    rw [reSearch] at h
    cases ha : reAttempt rx prev (c :: rest) with
    | some res =>
      rw [ha] at h
      cases h
      exact reAttempt_capture rx hrx prev (c :: rest) m0 cap ha
    | none =>
      rw [ha] at h
      exact ih _ _ _ h

/-- Every bank pattern of the table ends in the capturing group. -/
theorem BANK_PATTERNS_tailGrp : BANK_PATTERNS.all (fun p => tailGrpB p.2) = true := by
  decide

/-- A successful loop over the bank table comes from some table entry. -/
theorem firstBankHit_mem (ps : List (String × RE)) (s : List Char)
    (bank : String) (cap : Option (List Char)) :
    firstBankHit ps s = some (bank, cap) →
    ∃ rx m0, (bank, rx) ∈ ps ∧ reSearch rx none s = some (m0, cap) := by
  induction ps with
  | nil => intro h; cases h
  | cons p rest ih =>
    obtain ⟨b, rx⟩ := p
    intro h
    rw [firstBankHit] at h
    cases hm : reSearch rx none s with
    | some pr =>
      obtain ⟨m0, c⟩ := pr
      rw [hm] at h
      cases h
      exact ⟨rx, m0, by simp, hm⟩
    | none =>
      rw [hm] at h
      obtain ⟨rx2, m02, hmem, hs⟩ := ih h
      exact ⟨rx2, m02, by simp [hmem], hs⟩

/-- Claim C9: whenever `detectSourceAccountFromText` returns a result —
through a bank pattern or through the generic `UNKNOWN` fallback — its
`last4` field is present (never the `null` permitted by the result type)
and is a string of exactly four decimal digits. -/
theorem detectSource_last4_always_digits (text : String) (r : SrcHit)
    (h : detectSourceAccountFromText text = some r) :
    ∃ s4 : String, r.last4 = some s4 ∧ s4.data.length = 4 ∧ s4.data.all Char.isDigit = true := by
  rw [detectSourceAccountFromText] at h
  by_cases ht : text = ""
  · rw [if_pos ht] at h; cases h
  · rw [if_neg ht] at h
    cases hfb : firstBankHit BANK_PATTERNS (lowerData text) with
    | some pr =>
      obtain ⟨bank, cap⟩ := pr
      rw [hfb] at h
      cases h
      obtain ⟨rx, m0, hmem, hs⟩ := firstBankHit_mem _ _ _ _ hfb
      have htail : tailGrpB rx = true :=
        List.all_eq_true.mp BANK_PATTERNS_tailGrp (bank, rx) hmem
      obtain ⟨d, hd, hlen, hdig⟩ := reSearch_capture rx htail none _ m0 cap hs
      subst hd
      refine ⟨String.mk d, ?_, hlen, hdig⟩
      have hne : d ≠ [] := by
        intro he
        rw [he] at hlen
        cases hlen
      simp [last4Of, hlen, List.drop_zero, hne]
    | none =>
      rw [hfb] at h
      rw [genericHit] at h
      cases hg : reSearch GENERIC_LAST4 none (lowerData text) with
      | none => rw [hg] at h; cases h
      | some pr =>
        obtain ⟨m0, cap⟩ := pr
        rw [hg] at h
        cases h
        obtain ⟨d, hd, hlen, hdig⟩ := reSearch_capture GENERIC_LAST4 (by decide) none _ m0 cap hg
        subst hd
        exact ⟨String.mk d, rfl, hlen, hdig⟩

/-- Witness for `detectSource_last4_always_digits`, at a generic-fallback
text (`UNKNOWN` bank). -/
theorem detectSource_last4_always_digits_witness :
    ∃ s4 : String,
      (SrcHit.mk "UNKNOWN" (some "9999")).last4 = some s4 ∧
      s4.data.length = 4 ∧ s4.data.all Char.isDigit = true :=
  detectSource_last4_always_digits "Payment from card ****9999"
    ⟨"UNKNOWN", some "9999"⟩ (by decide)

/-! ### Claim C8: character-level facts about ASCII lower-casing -/

/-- Code point of `Char.ofNat` at a valid code point. -/
theorem toNat_ofNat_valid {n : Nat} (h : n.isValidChar) : (Char.ofNat n).toNat = n := by
  rw [Char.ofNat, dif_pos h]
  rfl

/-- Code point of `Char.toLower`. -/
theorem toLower_toNat (c : Char) :
    (Char.toLower c).toNat =
      if 65 ≤ c.toNat ∧ c.toNat ≤ 90 then c.toNat + 32 else c.toNat := by
  rw [Char.toLower]
  by_cases h : 65 ≤ c.toNat ∧ c.toNat ≤ 90
  · rw [if_pos h, if_pos h]
    exact toNat_ofNat_valid (Or.inl (by omega))
  · rw [if_neg h, if_neg h]

/-- `isTagChar` in terms of the code point. -/
theorem isTagChar_iff (c : Char) :
    isTagChar c = true ↔
      (48 ≤ c.toNat ∧ c.toNat ≤ 57) ∨ (65 ≤ c.toNat ∧ c.toNat ≤ 90) ∨
      (97 ≤ c.toNat ∧ c.toNat ≤ 122) ∨ c.toNat = 58 ∨ c.toNat = 95 ∨ c.toNat = 45 := by
  simp only [isTagChar, Bool.or_eq_true, Bool.and_eq_true, decide_eq_true_eq, beq_iff_eq]
  tauto

/-- Lower-casing keeps tag characters inside the tag-character class. -/
theorem isTagChar_toLower {c : Char} (h : isTagChar c = true) :
    isTagChar (Char.toLower c) = true := by
  rw [isTagChar_iff] at h ⊢
  rw [toLower_toNat]
  by_cases hu : 65 ≤ c.toNat ∧ c.toNat ≤ 90
  · rw [if_pos hu]; omega
  · rw [if_neg hu]; omega

/-- A character not in the upper-case range is fixed by `Char.toLower`. -/
theorem toLower_eq_self {c : Char} (h : ¬(65 ≤ c.toNat ∧ c.toNat ≤ 90)) :
    Char.toLower c = c := by
  rw [Char.toLower, if_neg h]

/-- `Char.toLower` is idempotent. -/
theorem toLower_toLower (c : Char) : Char.toLower (Char.toLower c) = Char.toLower c := by
  apply toLower_eq_self
  rw [toLower_toNat]
  by_cases hu : 65 ≤ c.toNat ∧ c.toNat ≤ 90
  · rw [if_pos hu]; omega
  · rw [if_neg hu]; exact hu

/-- A list of fixed points of a map is fixed by mapping it. -/
theorem map_fixed {f : Char → Char} :
    ∀ {l : List Char}, (∀ c ∈ l, f c = c) → l.map f = l
  | [], _ => rfl
  | c :: rest, h => by
    rw [List.map_cons, h c (by simp), map_fixed (fun d hd => h d (by simp [hd]))]

/-! ### Claim C8: the hashtag scanner -/

/-- The tag built from a run of at least two tag characters is good. -/
theorem goodTag_build {run : List Char} (hrun : ∀ c ∈ run, isTagChar c = true)
    (h2 : 2 ≤ run.length) : GoodTag ((run.take 32).map Char.toLower) := by
  refine ⟨?_, ?_, ?_⟩
  · rw [List.length_map, List.length_take]
    omega
  · rw [List.length_map, List.length_take]
    omega
  · intro c hc
    rw [List.mem_map] at hc
    obtain ⟨d, hd, hdc⟩ := hc
    have hdt : isTagChar d = true := hrun d (List.take_subset 32 run hd)
    subst hdc
    exact ⟨isTagChar_toLower hdt, toLower_toLower d⟩

/-- `addTag` keeps every element of the accumulator. -/
theorem mem_addTag_of_mem {acc : List (List Char)} {t u : List Char} (h : t ∈ acc) :
    t ∈ addTag acc u := by
  rw [addTag]
  by_cases hm : u ∈ acc
  · rw [if_pos hm]; exact h
  · rw [if_neg hm]; simp [h]

/-- The added tag is in the result of `addTag`. -/
theorem mem_addTag_self (acc : List (List Char)) (t : List Char) : t ∈ addTag acc t := by
  rw [addTag]
  by_cases hm : t ∈ acc
  · rw [if_pos hm]; exact hm
  · rw [if_neg hm]; simp

/-- Elements of `addTag` are the old ones or the added tag. -/
theorem mem_addTag {acc : List (List Char)} {t u : List Char} (h : t ∈ addTag acc u) :
    t ∈ acc ∨ t = u := by
  rw [addTag] at h
  by_cases hm : u ∈ acc
  · rw [if_pos hm] at h; exact Or.inl h
  · rw [if_neg hm] at h
    rcases List.mem_append.mp h with h2 | h2
    · exact Or.inl h2
    · exact Or.inr (by simpa using h2)

/-- `addTag` preserves distinctness. -/
theorem addTag_nodup {acc : List (List Char)} (h : acc.Nodup) (t : List Char) :
    (addTag acc t).Nodup := by
  rw [addTag]
  by_cases hm : t ∈ acc
  · rw [if_pos hm]; exact h
  · rw [if_neg hm]; simp [List.nodup_append, h, hm]

/-- Unfolding `scanTags` at a long-enough hashtag run. -/
theorem scanTags_hash_long (rest : List Char) (acc : List (List Char))
    (h2 : 2 ≤ (rest.takeWhile isTagChar).length) :
    scanTags ('#' :: rest) acc
      = scanTags (rest.drop (min (rest.takeWhile isTagChar).length 32))
          (addTag acc (((rest.takeWhile isTagChar).take 32).map Char.toLower)) := by
  rw [scanTags]
  simp [h2]

/-- Unfolding `scanTags` at a too-short hashtag run. -/
theorem scanTags_hash_short (rest : List Char) (acc : List (List Char))
    (h2 : ¬2 ≤ (rest.takeWhile isTagChar).length) :
    scanTags ('#' :: rest) acc = scanTags rest acc := by
  rw [scanTags]
  simp [h2]

/-- Unfolding `scanTags` at a non-hash character. -/
theorem scanTags_not_hash (c : Char) (rest : List Char) (acc : List (List Char))
    (hc : ¬c = '#') :
    scanTags (c :: rest) acc = scanTags rest acc := by
  rw [scanTags]
  simp [hc]

/-- Unfolding `scanTags` at the end of input. -/
theorem scanTags_nil (acc : List (List Char)) : scanTags [] acc = acc := by
  rw [scanTags]

/-- Every accumulator element survives the scan. -/
theorem mem_scanTags_of_mem :
    ∀ (s : List Char) (acc : List (List Char)) (t : List Char),
      t ∈ acc → t ∈ scanTags s acc := by
  intro s acc
  induction s, acc using scanTags.induct with
  | case1 acc => intro t ht; rw [scanTags_nil]; exact ht
  | case2 rest acc run h2 ih =>
    intro t ht
    rw [scanTags_hash_long rest acc h2]
    exact ih t (mem_addTag_of_mem ht)
  | case3 rest acc run h2 ih =>
    intro t ht
    rw [scanTags_hash_short rest acc h2]
    exact ih t ht
  | case4 c rest acc hc ih =>
    intro t ht
    rw [scanTags_not_hash c rest acc hc]
    exact ih t ht

/-- Scan soundness: the result is distinct whenever the accumulator is, and
every result element comes from the accumulator or is a good tag. -/
theorem scanTags_sound :
    ∀ (s : List Char) (acc : List (List Char)), acc.Nodup → (∀ t ∈ acc, GoodTag t) →
      (scanTags s acc).Nodup ∧ ∀ t ∈ scanTags s acc, GoodTag t := by
  intro s acc
  induction s, acc using scanTags.induct with
  | case1 acc => intro hn hg; rw [scanTags_nil]; exact ⟨hn, hg⟩
  | case2 rest acc run h2 ih =>
    intro hn hg
    rw [scanTags_hash_long rest acc h2]
    refine ih (addTag_nodup hn _) ?_
    intro t ht
    rcases mem_addTag ht with h | h
    · exact hg t h
    · subst h
      exact goodTag_build (fun d hd => List.mem_takeWhile_imp hd) h2
  | case3 rest acc run h2 ih =>
    intro hn hg
    rw [scanTags_hash_short rest acc h2]
    exact ih hn hg
  | case4 c rest acc hc ih =>
    intro hn hg
    rw [scanTags_not_hash c rest acc hc]
    exact ih hn hg

/-- Character data of a string append. -/
theorem data_append (a b : String) : (a ++ b).data = a.data ++ b.data := rfl

/-- `takeWhile` never passes a failing element, wherever it sits. -/
theorem takeWhile_append_break (p : Char → Bool) (x : Char) (hx : p x = false) :
    ∀ (u v : List Char), (u ++ x :: v).takeWhile p = u.takeWhile p
  | [], v => by simp [List.takeWhile_cons, hx]
  | c :: u, v => by
    by_cases hc : p c = true
    · rw [List.cons_append, List.takeWhile_cons_of_pos hc, List.takeWhile_cons_of_pos hc,
        takeWhile_append_break p x hx u v]
    · rw [List.cons_append, List.takeWhile_cons_of_neg (by simp [hc]),
        List.takeWhile_cons_of_neg (by simp [hc])]

/-- Scanning a rendered list of good tags folds them into the accumulator. -/
theorem scanTags_render :
    ∀ (ts : List String), (∀ t ∈ ts, GoodTag t.data) →
      ∀ acc, scanTags (renderTags ts).data acc
        = ts.foldl (fun a t => addTag a t.data) acc := by
  intro ts
  induction ts with
  | nil => intro _ acc; rw [renderTags]; exact scanTags_nil acc
  | cons t ts ih =>
    intro hgood acc
    have hg : GoodTag t.data := hgood t (by simp)
    obtain ⟨hg2, hg32, hgc⟩ := hg
    have htags : ∀ c ∈ t.data, isTagChar c = true := fun c hc => (hgc c hc).1
    have hself : t.data.takeWhile isTagChar = t.data :=
      List.takeWhile_eq_self_iff.mpr htags
    have hfix : (t.data.take 32).map Char.toLower = t.data := by
      rw [List.take_of_length_le hg32]
      exact map_fixed (fun c hc => (hgc c hc).2)
    cases ts with
    | nil =>
      rw [renderTags]
      have hdata : ("#" ++ t).data = '#' :: t.data := rfl
      rw [hdata, List.foldl_cons, List.foldl_nil,
        scanTags_hash_long t.data acc (by rw [hself]; exact hg2)]
      rw [hself, hfix]
      have hdrop : t.data.drop (min t.data.length 32) = [] := by
        rw [Nat.min_eq_left hg32, List.drop_length]
      rw [hdrop, scanTags_nil]
    | cons t2 ts2 =>
      have hdata : (renderTags (t :: t2 :: ts2)).data
          = '#' :: (t.data ++ ' ' :: (renderTags (t2 :: ts2)).data) := by
        rw [renderTags, data_append, data_append, data_append]
        have h1 : "#".data = ['#'] := rfl
        have h2 : " ".data = [' '] := rfl
        rw [h1, h2]
        simp [List.append_assoc]
      have hrun : (t.data ++ ' ' :: (renderTags (t2 :: ts2)).data).takeWhile isTagChar
          = t.data := by
        rw [takeWhile_append_break isTagChar ' ' (by decide), hself]
      rw [hdata, scanTags_hash_long _ acc (by rw [hrun]; exact hg2), hrun, hfix]
      have hdrop : (t.data ++ ' ' :: (renderTags (t2 :: ts2)).data).drop
          (min t.data.length 32) = ' ' :: (renderTags (t2 :: ts2)).data := by
        rw [Nat.min_eq_left hg32]
        exact List.drop_left t.data _
      rw [hdrop, scanTags_not_hash ' ' _ _ (by decide), List.foldl_cons]
      exact ih (fun u hu => hgood u (by simp [hu])) (addTag acc t.data)

/-- Folding `addTag` over fresh, distinct tags appends them all. -/
theorem foldl_addTag_fresh :
    ∀ (l : List (List Char)), l.Nodup → ∀ acc, (∀ t ∈ l, t ∉ acc) →
      l.foldl addTag acc = acc ++ l := by
  intro l
  induction l with
  | nil => intro _ acc _; simp
  | cons a l ih =>
    intro hn acc hfresh
    rw [List.foldl_cons]
    have ha : addTag acc a = acc ++ [a] := by
      rw [addTag, if_neg (hfresh a (by simp))]
    rw [ha, ih (List.Nodup.of_cons hn) (acc ++ [a]) ?_, List.append_assoc]
    · rfl
    · intro t ht
      rw [List.mem_append]
      rintro (h1 | h1)
      · exact hfresh t (by simp [ht]) h1
      · rw [List.mem_singleton] at h1
        subst h1
        exact (List.nodup_cons.mp hn).1 ht

/-- The rendering of a non-empty tag list starts with a hash. -/
theorem renderTags_data_cons (t : String) (ts : List String) :
    ∃ r, (renderTags (t :: ts)).data = '#' :: r := by
  cases ts with
  | nil => exact ⟨t.data, rfl⟩
  | cons t2 ts2 => exact ⟨(t.data ++ " ".data) ++ (renderTags (t2 :: ts2)).data, rfl⟩

/-- A rendered non-empty tag list is not the empty string. -/
theorem renderTags_ne_empty (t : String) (ts : List String) :
    renderTags (t :: ts) ≠ "" := by
  intro h
  obtain ⟨r, hr⟩ := renderTags_data_cons t ts
  rw [h] at hr
  simp at hr

/-- Claim C8: `extractHashtags` lower-cases tags and deduplicates them
case-insensitively (`"#Food #food"` yields `["food"]` and the result is
always duplicate-free), and it is idempotent under re-extraction: rendering
the extracted tags back into hashtag text and extracting again yields the
same list. -/
theorem extractHashtags_dedup_idempotent :
    extractHashtags "#Food #food" = ["food"] ∧
    (∀ text : String, (extractHashtags text).Nodup) ∧
    (∀ text : String,
       extractHashtags (renderTags (extractHashtags text)) = extractHashtags text) := by
  have hfood : extractHashtags "#Food #food" = ["food"] := by
    have h0 : "#Food #food".data = '#' :: "Food #food".data := rfl
    rw [extractHashtags, if_neg (by decide), h0,
      scanTags_hash_long _ _ (by decide)]
    show (scanTags (' ' :: '#' :: "food".data) [['f', 'o', 'o', 'd']]).map String.mk
      = ["food"]
    rw [scanTags_not_hash _ _ _ (by decide), scanTags_hash_long _ _ (by decide)]
    show (scanTags ([] : List Char) [['f', 'o', 'o', 'd']]).map String.mk = ["food"]
    rw [scanTags_nil]
    rfl
  refine ⟨hfood, ?_, ?_⟩
  · intro text
    rw [extractHashtags]
    by_cases ht : text = ""
    · rw [if_pos ht]; exact List.nodup_nil
    · rw [if_neg ht]
      have hs := scanTags_sound text.data [] List.nodup_nil (by simp)
      exact hs.1.map (fun a b hab => congrArg String.data hab)
  · intro text
    by_cases ht : text = ""
    · subst ht; rfl
    · have hs := scanTags_sound text.data [] List.nodup_nil (by simp)
      have hts : extractHashtags text = (scanTags text.data []).map String.mk := by
        rw [extractHashtags, if_neg ht]
      cases hL : scanTags text.data [] with
      | nil => rw [hts, hL]; rfl
      | cons L0 Ls =>
        have hcons : extractHashtags text
            = String.mk L0 :: Ls.map String.mk := by rw [hts, hL]; rfl
        rw [hcons]
        rw [extractHashtags, if_neg (renderTags_ne_empty _ _)]
        have hgood : ∀ t ∈ String.mk L0 :: Ls.map String.mk, GoodTag t.data := by
          intro t htm
          rcases List.mem_cons.mp htm with h1 | h1
          · subst h1; exact hs.2 L0 (by rw [hL]; simp)
          · rw [List.mem_map] at h1
            obtain ⟨u, hu, hut⟩ := h1
            subst hut
            exact hs.2 u (by rw [hL]; simp [hu])
        rw [scanTags_render _ hgood [], ← List.foldl_map String.data addTag]
        have hdata : (String.mk L0 :: Ls.map String.mk).map String.data = L0 :: Ls := by
          rw [List.map_cons, List.map_map]
          have hco : (String.data ∘ String.mk) = id := rfl
          rw [hco, List.map_id]
        rw [hdata]
        have hnodup : (L0 :: Ls).Nodup := by rw [← hL]; exact hs.1
        rw [foldl_addTag_fresh _ hnodup [] (by simp), List.nil_append]
        rfl

/-! ### Claim C10: over-long and too-short hashtag tokens -/

/-- Wherever a `#` with a tag-character run longer than 32 sits in the text,
the scan reaches it and records the lower-cased 32-character prefix of the
run (a `#` is never consumed as part of another match, since `#` is not a
tag character). -/
theorem scanTags_long_run_mem :
    ∀ (s : List Char) (acc : List (List Char)) (u v : List Char),
      s = u ++ '#' :: v → 32 < (v.takeWhile isTagChar).length →
      ((v.takeWhile isTagChar).take 32).map Char.toLower ∈ scanTags s acc := by
  intro s acc
  induction s, acc using scanTags.induct with
  | case1 acc =>
    intro u v he h32
    exact absurd he.symm (by simp)
  | case2 rest acc run h2 ih =>
    intro u v he h32
    cases u with
    | nil =>
      have hv : rest = v := by simpa using he
      subst hv
      rw [scanTags_hash_long rest acc h2]
      exact mem_scanTags_of_mem _ _ _ (mem_addTag_self acc _)
    | cons c2 u2 =>
      injection he with hc2 hrest
      subst hrest
      rw [scanTags_hash_long _ acc h2]
      have hbreak : (u2 ++ '#' :: v).takeWhile isTagChar = u2.takeWhile isTagChar :=
        takeWhile_append_break isTagChar '#' (by decide) u2 v
      have hlen : min ((u2 ++ '#' :: v).takeWhile isTagChar).length 32 ≤ u2.length := by
        have hle : (u2.takeWhile isTagChar).length ≤ u2.length :=
          (List.takeWhile_prefix isTagChar).length_le
        rw [hbreak]
        omega
      have hdrop : (u2 ++ '#' :: v).drop (min ((u2 ++ '#' :: v).takeWhile isTagChar).length 32)
          = (u2.drop (min ((u2 ++ '#' :: v).takeWhile isTagChar).length 32)) ++ '#' :: v :=
        List.drop_append_of_le_length hlen
      exact ih _ v hdrop h32
  | case3 rest acc run h2 ih =>
    intro u v he h32
    cases u with
    | nil =>
      have hv : rest = v := by simpa using he
      exfalso
      apply h2
      show 2 ≤ (rest.takeWhile isTagChar).length
      rw [hv]
      omega
    | cons c2 u2 =>
      injection he with hc2 hrest
      rw [scanTags_hash_short rest acc h2]
      exact ih u2 v hrest h32
  | case4 c rest acc hc ih =>
    intro u v he h32
    cases u with
    | nil =>
      injection he with hc2 hrest
      exact absurd hc2 hc
    | cons c2 u2 =>
      injection he with hc2 hrest
      rw [scanTags_not_hash c rest acc hc]
      exact ih u2 v hrest h32

/-- Claim C10: a hashtag token longer than 32 characters is not rejected —
its lower-cased first 32 characters are returned as a tag — and a hashtag
token of length 1 yields no tag. -/
theorem extractHashtags_token_length_bounds :
    (∀ (u v : List Char), 32 < (v.takeWhile isTagChar).length →
       String.mk (((v.takeWhile isTagChar).take 32).map Char.toLower)
         ∈ extractHashtags (String.mk (u ++ '#' :: v))) ∧
    (∀ (t : List Char), t.all isTagChar = true → t.length = 1 →
       extractHashtags (String.mk ('#' :: t)) = []) := by
  constructor
  · intro u v h32
    have hne : String.mk (u ++ '#' :: v) ≠ "" := by
      intro h
      have hd := congrArg String.data h
      simp at hd
    rw [extractHashtags, if_neg hne]
    exact List.mem_map_of_mem String.mk (scanTags_long_run_mem _ [] u v rfl h32)
  · intro t hall h1
    match t, h1 with
    | [c], _ =>
      have hc : isTagChar c = true := by simpa using hall
      have hcne : ¬c = '#' := by
        intro h
        rw [h] at hc
        exact absurd hc (by decide)
      have hne : String.mk ['#', c] ≠ "" := by
        intro h
        have hd := congrArg String.data h
        simp at hd
      rw [extractHashtags, if_neg hne]
      have hdata : (String.mk ['#', c]).data = '#' :: [c] := rfl
      have hshort : ¬2 ≤ (([c] : List Char).takeWhile isTagChar).length := by
        rw [List.takeWhile_cons_of_pos hc]
        simp
      rw [hdata, scanTags_hash_short _ _ hshort, scanTags_not_hash c [] [] hcne, scanTags_nil]
      rfl

/-- Witness for `extractHashtags_token_length_bounds`: a 33-character token
keeps its first 32 characters, a 1-character token yields nothing. -/
theorem extractHashtags_token_length_bounds_witness :
    (String.mk ((((List.replicate 33 'a').takeWhile isTagChar).take 32).map Char.toLower)
       ∈ extractHashtags (String.mk ([] ++ '#' :: List.replicate 33 'a'))) ∧
    extractHashtags (String.mk ('#' :: ['a'])) = [] :=
  ⟨extractHashtags_token_length_bounds.1 [] (List.replicate 33 'a') (by decide),
   extractHashtags_token_length_bounds.2 ['a'] (by decide) (by decide)⟩

/-! ### Cross-checks against the repository's Jest test suites

The expectations below replicate assertions of
`src/core/__tests__/accountMatcher.test.ts` and
`src/core/__tests__/transactionFlow.test.ts` inside the embedding. -/

/-- The embedding reproduces the repository's `detectSourceAccountFromText`
test expectations. -/
theorem detectSource_matches_test_suite :
    detectSourceAccountFromText "Payment to ABC123 via HDFC account ****1234"
      = some ⟨"HDFC", some "1234"⟩ ∧
    detectSourceAccountFromText "Transaction from ICICI card ****5678"
      = some ⟨"ICICI", some "5678"⟩ ∧
    detectSourceAccountFromText "Just a regular note without bank info" = none ∧
    detectSourceAccountFromText "Payment via SBI account 1234" = some ⟨"SBI", some "1234"⟩ ∧
    detectSourceAccountFromText "Payment from card ****9999" = some ⟨"UNKNOWN", some "9999"⟩ ∧
    detectSourceAccountFromText "" = none := by
  decide

/-- The embedding reproduces the repository's `detectBankFromUpiText` test
expectations. -/
theorem detectBank_matches_test_suite :
    detectBankFromUpiText "Payment to john@okhdfc" = some ⟨"okhdfc", "HDFC"⟩ ∧
    detectBankFromUpiText "Transaction via mob@ybl" = some ⟨"ybl", "YES"⟩ ∧
    detectBankFromUpiText "Payment to abc@axis" = some ⟨"axis", "AXIS"⟩ ∧
    detectBankFromUpiText "Regular transaction note" = none ∧
    detectBankFromUpiText "Payment to user@unknownbank" = none ∧
    detectBankFromUpiText "" = none := by
  decide

/-- The embedding reproduces the repository's `detectUpiHandle` test
expectations. -/
theorem detectUpiHandle_matches_test_suite :
    detectUpiHandle "Payment to john@okhdfc" = some "john@okhdfc" ∧
    detectUpiHandle "Transaction via 9876543210@ybl" = some "9876543210@ybl" ∧
    detectUpiHandle "Payment to user.name@axis" = some "user.name@axis" ∧
    detectUpiHandle "Regular transaction note" = none ∧
    detectUpiHandle "userhdfc" = none ∧
    detectUpiHandle "user@" = none ∧
    detectUpiHandle "" = none := by
  decide

end ClearTx
